import Mathlib

/-!
Verification of the intake pipeline of the ipv666 repository
(`common/input/input.go` and `common/statemachine/addrupdate.go`).

An address (`*net.IP`) is modelled by its raw byte sequence.  The entropy
score of an address is a `float64` in the source, computed by the external
collaborator `zrandom.GetEntropyOfBitsFromRight`; scores are modelled as
rationals and the configured threshold as `WithTop ℚ` so that the
floating-point value `+Inf` has a faithful counterpart (`⊤`), with
`(finite : WithTop ℚ) < ⊤` holding just as `x < +Inf` does for every finite
`float64` `x`.
-/

/-- An address record: the raw bytes of a `*net.IP`. -/
abbrev IP := List Nat

namespace Ipv666

/-! ### filterOutHighEntropyIPs (common/input/input.go) -/

/-- One iteration of the loop in `filterOutHighEntropyIPs`, carrying the loop
index `i`.  Each iteration first evaluates `i % conf.InputEmitFreq` for the
progress log; in Go, `%` by zero panics, which the embedding renders as
`none`.  The address is appended to the result exactly when
`entropy < conf.InputEntropyThreshold`. -/
def filterLoop (entropyFn : IP → Nat → ℚ) (emitFreq : Nat) (bitLength : Nat)
    (threshold : WithTop ℚ) : Nat → List IP → Option (List IP)
  | _, [] => some []
  | i, ip :: rest =>
    if emitFreq = 0 then none
    else
      match filterLoop entropyFn emitFreq bitLength threshold (i + 1) rest with
      | none => none
      | some tail =>
        if (entropyFn ip bitLength : WithTop ℚ) < threshold then
          some (ip :: tail)
        else
          some tail

/-- Model of `filterOutHighEntropyIPs` from `common/input/input.go`: walks the list,
logging every `conf.InputEmitFreq` items (the `i % conf.InputEmitFreq`
expression panics when the frequency is zero, modelled as `none`), and keeps
an address iff the entropy of its rightmost `conf.InputEntropyBitLength`
bits is strictly below `conf.InputEntropyThreshold`.  The entropy function
itself (`zrandom.GetEntropyOfBitsFromRight`) is an external collaborator and
is a parameter. -/
def filterOutHighEntropyIPs (entropyFn : IP → Nat → ℚ) (emitFreq : Nat)
    (bitLength : Nat) (threshold : WithTop ℚ) (ips : List IP) :
    Option (List IP) :=
  filterLoop entropyFn emitFreq bitLength threshold 0 ips

/-! ### removeDuplicateIPs (common/input/input.go) -/

/-- Single pass of the deduplicator with the set of already-seen raw byte
values as accumulator. -/
def uniqueAux (seen : List IP) : List IP → List IP
  | [] => []
  | x :: xs =>
    if x ∈ seen then uniqueAux seen xs
    else x :: uniqueAux (x :: seen) xs

/-- Modelled from the spec: `addressing.GetUniqueIPs`, called by
`removeDuplicateIPs`, lives in the `common/addressing` package which is not
part of the provided sources.  Per §4.2 of the spec it is a single pass
mapping raw byte value to a first-seen flag, first occurrence wins, order
preserved, no error conditions; the progress log every `emitFreq` items does
not affect the result. -/
def GetUniqueIPs (ips : List IP) (emitFreq : Nat) : List IP :=
  let _ := emitFreq
  uniqueAux [] ips

/-- Model of `removeDuplicateIPs` from `common/input/input.go`: logs and delegates to
`addressing.GetUniqueIPs`. -/
def removeDuplicateIPs (ips : List IP) (emitFreq : Nat) : List IP :=
  GetUniqueIPs ips emitFreq

/-! ### PrepareFromInputFile (common/input/input.go)

The orchestrator is effectful: it prompts the operator twice, reads the
input file, deletes the workspace, writes a model, writes the surviving
addresses and rewrites the phase state file.  Each effectful collaborator is
modelled by its outcome, fixed in an environment record, and the run
produces the error (or success) returned to the caller together with a
record of which filesystem mutations were performed. -/

/-- Outcomes of the effectful collaborators of `PrepareFromInputFile`, plus
the configuration knobs it reads.  `none` for `loadResult` means
`getIPsFromFile` returned an error.  Each `…Ok` flag tells whether the
corresponding fallible call would succeed. -/
structure Env where
  /-- Outcome of `shell.PromptForApproval` for the destructive-cleanup gate. -/
  confirmCleanOk : Bool
  /-- Outcome of `getIPsFromFile`. -/
  loadResult : Option (List IP)
  /-- Outcome of `shell.PromptForApproval` for the too-few-addresses gate. -/
  confirmFewOk : Bool
  /-- whether `fs.DeleteAllFilesInDirectory` succeeds. -/
  cleanupOk : Bool
  /-- whether `model.Save` succeeds. -/
  modelSaveOk : Bool
  /-- whether `addressing.WriteIPsToHexFile` succeeds. -/
  writeOk : Bool
  /-- whether `statemachine.SetStateFile` succeeds. -/
  stateOk : Bool
  inputMinAddresses : Nat
  inputEmitFreq : Nat
  entropyBitLength : Nat
  entropyThreshold : WithTop ℚ
  /-- The external collaborator `zrandom.GetEntropyOfBitsFromRight`. -/
  entropyFn : IP → Nat → ℚ

/-- Errors `PrepareFromInputFile` can return to its caller. -/
inductive PrepErr where
  | confirmCleanDeclined
  | loadError
  | tooFewDeclined
  | cleanupError
  | modelError
  | stateError
  deriving Repr, DecidableEq

/-- Which filesystem mutations a run of `PrepareFromInputFile` performed.
A `…Run` flag is set as soon as the step executes, whether or not it then
fails (`cleanUpWorkingDirectories` deletes files up to the failure point).
`stateAdvanced` is set only when `updateState` ran and `SetStateFile`
succeeded, i.e. exactly when the phase state file changed on disk. -/
structure World where
  resetRun : Bool
  modelSaveRun : Bool
  writeRun : Bool
  writeSucceeded : Bool
  stateAdvanced : Bool
  deriving Repr, DecidableEq

/-- The world before any mutation. -/
def initWorld : World :=
  { resetRun := false, modelSaveRun := false, writeRun := false,
    writeSucceeded := false, stateAdvanced := false }

/-- The deduplicated, entropy-filtered address list of a run (the value of
`addrs` at the threshold check), `none` when loading fails or the filter
panics. -/
def survivors (env : Env) : Option (List IP) :=
  match env.loadResult with
  | none => none
  | some loaded =>
    filterOutHighEntropyIPs env.entropyFn env.inputEmitFreq
      env.entropyBitLength env.entropyThreshold
      (removeDuplicateIPs loaded env.inputEmitFreq)

/-- Model of `PrepareFromInputFile` from `common/input/input.go`, step for step:
confirm cleanup, load, dedup, entropy-filter (whose division-by-zero panic
is the outer `none`), threshold check with conditional confirmation, delete
working directories, save blank model, write surviving addresses — whose
returned error the source discards (`writeNewAddresses(addrs, conf)` with
no `err =`) — and finally update the phase state file. -/
def PrepareFromInputFile (env : Env) : Option (Except PrepErr Unit × World) :=
  if !env.confirmCleanOk then some (.error .confirmCleanDeclined, initWorld)
  else
    match env.loadResult with
    | none => some (.error .loadError, initWorld)
    | some loaded =>
      let deduped := removeDuplicateIPs loaded env.inputEmitFreq
      match filterOutHighEntropyIPs env.entropyFn env.inputEmitFreq
          env.entropyBitLength env.entropyThreshold deduped with
      | none => none
      | some addrs =>
        if addrs.length < env.inputMinAddresses && !env.confirmFewOk then
          some (.error .tooFewDeclined, initWorld)
        else if !env.cleanupOk then
          some (.error .cleanupError, { initWorld with resetRun := true })
        else if !env.modelSaveOk then
          some (.error .modelError,
            { initWorld with resetRun := true, modelSaveRun := true })
        else
          let w : World :=
            { resetRun := true, modelSaveRun := true, writeRun := true,
              writeSucceeded := env.writeOk, stateAdvanced := false }
          if !env.stateOk then some (.error .stateError, w)
          else some (.ok (), { w with stateAdvanced := true })

/-! ### updateAddressFile (common/statemachine/addrupdate.go) -/

/-- One chunk written to the output address file: either the raw bytes of an
address (`writer.Write(toWrite)`) or its newline-terminated textual
representation (`writer.WriteString(fmt.Sprintf("%s\n", addr))`). -/
inductive OutChunk where
  | raw (bytes : IP)
  | text (addr : IP)
  deriving Repr, DecidableEq

/-- Outcomes of the collaborators of `updateAddressFile`.  `writesOk` says
whether the buffered writes and the final flush would actually persist the
data; the source never inspects it. -/
structure WriterEnv where
  /-- Outcome of `data.GetCleanPingResults`. -/
  cleanPings : Option (List IP)
  /-- whether `os.OpenFile` succeeds. -/
  openOk : Bool
  outputFileType : String
  /-- whether the buffered writes and `writer.Flush` persist the bytes. -/
  writesOk : Bool

/-- Errors `updateAddressFile` can return. -/
inductive WriterErr where
  | pingReadError
  | openError
  deriving Repr, DecidableEq

/-- Model of `updateAddressFile` from `common/statemachine/addrupdate.go`: read the
clean ping results, open the output file for append, then — if the
configured output type differs from "bin" — log a warning when it also
differs from "text" and write one newline-terminated textual representation
per address, else write the raw address bytes.  The return values of
`writer.WriteString`, `writer.Write` and `writer.Flush` are discarded by the
source, so `writesOk` is never read.  Returns the chunks handed to the
writer and whether the unexpected-format warning was logged. -/
def updateAddressFile (env : WriterEnv) :
    Except WriterErr (List OutChunk × Bool) :=
  match env.cleanPings with
  | none => .error .pingReadError
  | some cleanPings =>
    if !env.openOk then .error .openError
    else if env.outputFileType ≠ "bin" then
      .ok (cleanPings.map OutChunk.text,
           decide (env.outputFileType ≠ "text"))
    else
      .ok (cleanPings.map OutChunk.raw, false)

/-- Index of the first occurrence of `a` in a list (length of the list when
`a` does not occur); used to state first-appearance ordering. -/
def firstIndexOf (a : IP) : List IP → Nat
  | [] => 0
  | x :: xs => if x = a then 0 else firstIndexOf a xs + 1

/-! ### Concrete runs used as evidence -/

/-- A run in which every collaborator succeeds except
`addressing.WriteIPsToHexFile` (for example the disk fills up while the
surviving addresses are being written). -/
def writeFailEnv : Env :=
  { confirmCleanOk := true, loadResult := some [[0]], confirmFewOk := true,
    cleanupOk := true, modelSaveOk := true, writeOk := false, stateOk := true,
    inputMinAddresses := 0, inputEmitFreq := 1, entropyBitLength := 64,
    entropyThreshold := ⊤, entropyFn := fun _ _ => 0 }

/-- A fully successful run. -/
def allOkEnv : Env :=
  { confirmCleanOk := true, loadResult := some [[0]], confirmFewOk := true,
    cleanupOk := true, modelSaveOk := true, writeOk := true, stateOk := true,
    inputMinAddresses := 0, inputEmitFreq := 1, entropyBitLength := 64,
    entropyThreshold := ⊤, entropyFn := fun _ _ => 0 }

/-- A run whose surviving list (one address) is below the configured minimum
of five and whose operator declines the continuation prompt. -/
def tooFewEnv : Env :=
  { confirmCleanOk := true, loadResult := some [[0]], confirmFewOk := false,
    cleanupOk := true, modelSaveOk := true, writeOk := true, stateOk := true,
    inputMinAddresses := 5, inputEmitFreq := 1, entropyBitLength := 64,
    entropyThreshold := ⊤, entropyFn := fun _ _ => 0 }

/-- A run in which `fs.DeleteAllFilesInDirectory` fails. -/
def cleanFailEnv : Env :=
  { confirmCleanOk := true, loadResult := some [[0]], confirmFewOk := true,
    cleanupOk := false, modelSaveOk := true, writeOk := true, stateOk := true,
    inputMinAddresses := 0, inputEmitFreq := 1, entropyBitLength := 64,
    entropyThreshold := ⊤, entropyFn := fun _ _ => 0 }

/-- A writer run configured with the unrecognized output type "hex". -/
def writerHexEnv : WriterEnv :=
  { cleanPings := some [[1], [2]], openOk := true, outputFileType := "hex",
    writesOk := true }

/-! ### Lemmas about the entropy filter -/

theorem filterLoop_of_pos (f : IP → Nat → ℚ) {emitFreq : Nat} (bitLen : Nat)
    (thr : WithTop ℚ) (hf : 0 < emitFreq) (i : Nat) (ips : List IP) :
    filterLoop f emitFreq bitLen thr i ips =
      some (ips.filter (fun ip => decide ((f ip bitLen : WithTop ℚ) < thr))) := by
  induction ips generalizing i with
  | nil => rfl
  | cons x xs ih =>
    simp only [filterLoop, Nat.pos_iff_ne_zero.mp hf, if_false, ih (i + 1),
      List.filter_cons]
    by_cases hx : (f x bitLen : WithTop ℚ) < thr
    · simp [hx]
    · simp [hx]

theorem filterLoop_isSome_iff (f : IP → Nat → ℚ) (emitFreq bitLen : Nat)
    (thr : WithTop ℚ) (i : Nat) (ips : List IP) :
    (filterLoop f emitFreq bitLen thr i ips).isSome ↔
      (0 < emitFreq ∨ ips = []) := by
  cases ips with
  | nil => simp [filterLoop]
  | cons x xs =>
    rcases Nat.eq_zero_or_pos emitFreq with h0 | hp
    · subst h0; simp [filterLoop]
    · rw [filterLoop_of_pos f bitLen thr hp]
      simp [Nat.pos_iff_ne_zero.mp hp, hp]

/-! ### Lemmas about the deduplicator -/

theorem mem_uniqueAux {a : IP} :
    ∀ (l seen : List IP), a ∈ uniqueAux seen l ↔ a ∈ l ∧ a ∉ seen := by
  intro l
  induction l with
  | nil => intro seen; simp [uniqueAux]
  | cons x xs ih =>
    intro seen
    by_cases hx : x ∈ seen
    · simp only [uniqueAux, if_pos hx, ih, List.mem_cons]
      constructor
      · rintro ⟨ha, hs⟩; exact ⟨Or.inr ha, hs⟩
      · rintro ⟨ha | ha, hs⟩
        · exact absurd (ha ▸ hx) hs
        · exact ⟨ha, hs⟩
    · simp only [uniqueAux, if_neg hx, List.mem_cons, ih, List.mem_cons]
      constructor
      · rintro (rfl | ⟨ha, hs⟩)
        · exact ⟨Or.inl rfl, hx⟩
        · exact ⟨Or.inr ha, fun hmem => hs (Or.inr hmem)⟩
      · rintro ⟨rfl | ha, hs⟩
        · exact Or.inl rfl
        · by_cases hax : a = x
          · exact Or.inl hax
          · exact Or.inr ⟨ha, fun h => by
              rcases h with h | h
              · exact hax h
              · exact hs h⟩

theorem uniqueAux_sublist :
    ∀ (l seen : List IP), (uniqueAux seen l).Sublist l := by
  intro l
  induction l with
  | nil => intro seen; simp [uniqueAux]
  | cons x xs ih =>
    intro seen
    by_cases hx : x ∈ seen
    · simpa [uniqueAux, hx] using (ih seen).cons x
    · simpa [uniqueAux, hx] using (ih (x :: seen)).cons₂ x

theorem nodup_uniqueAux :
    ∀ (l seen : List IP), (uniqueAux seen l).Nodup := by
  intro l
  induction l with
  | nil => intro seen; simp [uniqueAux]
  | cons x xs ih =>
    intro seen
    by_cases hx : x ∈ seen
    · simpa [uniqueAux, hx] using ih seen
    · simp only [uniqueAux, if_neg hx, List.nodup_cons]
      refine ⟨fun hmem => ?_, ih (x :: seen)⟩
      exact ((mem_uniqueAux xs (x :: seen)).mp hmem).2 (List.mem_cons_self x seen)

theorem uniqueAux_eq_filter_of_nodup :
    ∀ {l : List IP}, l.Nodup → ∀ (seen : List IP),
      uniqueAux seen l = l.filter (fun x => decide (x ∉ seen)) := by
  intro l
  induction l with
  | nil => intro _ seen; simp [uniqueAux]
  | cons x xs ih =>
    intro hnd seen
    rcases List.nodup_cons.mp hnd with ⟨hxxs, hnd'⟩
    by_cases hx : x ∈ seen
    · simp only [uniqueAux, if_pos hx, List.filter_cons]
      simp [hx, ih hnd' seen]
    · simp only [uniqueAux, if_neg hx, List.filter_cons]
      simp only [hx, not_false_eq_true, decide_eq_true_eq, if_pos]
      refine congrArg (x :: ·) ?_
      rw [ih hnd' (x :: seen)]
      refine List.filter_congr fun a ha => ?_
      have hax : a ≠ x := fun h => hxxs (h ▸ ha)
      simp [List.mem_cons, hax]

theorem uniqueAux_pairwise_firstIndexOf :
    ∀ (l seen : List IP),
      (uniqueAux seen l).Pairwise
        (fun a b => firstIndexOf a l < firstIndexOf b l) := by
  intro l
  induction l with
  | nil => intro seen; simp [uniqueAux]
  | cons x xs ih =>
    intro seen
    by_cases hx : x ∈ seen
    · simp only [uniqueAux, if_pos hx]
      refine List.Pairwise.imp_of_mem (fun {a} {b} ha hb hr => ?_) (ih seen)
      have hane : x ≠ a := fun h =>
        ((mem_uniqueAux xs seen).mp ha).2 (by rw [← h]; exact hx)
      have hbne : x ≠ b := fun h =>
        ((mem_uniqueAux xs seen).mp hb).2 (by rw [← h]; exact hx)
      simp only [firstIndexOf, if_neg hane, if_neg hbne]
      exact Nat.succ_lt_succ hr
    · simp only [uniqueAux, if_neg hx, List.pairwise_cons]
      constructor
      · intro b hb
        have hbne : x ≠ b := fun h =>
          ((mem_uniqueAux xs (x :: seen)).mp hb).2
            (by rw [← h]; exact List.mem_cons_self x seen)
        simp only [firstIndexOf, if_pos rfl, if_neg hbne]
        exact Nat.succ_pos _
      · refine List.Pairwise.imp_of_mem (fun {a} {b} ha hb hr => ?_)
          (ih (x :: seen))
        have hane : x ≠ a := fun h =>
          ((mem_uniqueAux xs (x :: seen)).mp ha).2
            (by rw [← h]; exact List.mem_cons_self x seen)
        have hbne : x ≠ b := fun h =>
          ((mem_uniqueAux xs (x :: seen)).mp hb).2
            (by rw [← h]; exact List.mem_cons_self x seen)
        simp only [firstIndexOf, if_neg hane, if_neg hbne]
        exact Nat.succ_lt_succ hr

theorem count_eq_one_of_nodup_mem {a : IP} :
    ∀ {l : List IP}, l.Nodup → a ∈ l → l.count a = 1 := by
  intro l
  induction l with
  | nil => intro _ ha; exact absurd ha (List.not_mem_nil a)
  | cons x xs ih =>
    intro hnd ha
    rcases List.nodup_cons.mp hnd with ⟨hx, hnd'⟩
    rcases List.mem_cons.mp ha with rfl | ha'
    · have hz : xs.count a = 0 := List.count_eq_zero.mpr hx
      simp [List.count_cons, hz]
    · have hne : x ≠ a := fun h => hx (h ▸ ha')
      simp [List.count_cons, ih hnd' ha', hne]

/-! ### Claims about the entropy filter -/

/-- C3: for every input list, bit length and threshold (and a positive
progress-log interval, without which the loop panics — see the totality
claim), `filterOutHighEntropyIPs` returns exactly the input filtered by
"entropy score of the rightmost `bitLength` bits strictly below the
threshold": an address is retained iff its score is below the threshold,
and the surviving addresses are the input values themselves, unmodified. -/
theorem filterOutHighEntropyIPs_retains_iff (f : IP → Nat → ℚ)
    (emitFreq bitLen : Nat) (thr : WithTop ℚ) (ips : List IP)
    (hf : 0 < emitFreq) :
    filterOutHighEntropyIPs f emitFreq bitLen thr ips =
        some (ips.filter fun ip => decide ((f ip bitLen : WithTop ℚ) < thr)) ∧
      ∀ out, filterOutHighEntropyIPs f emitFreq bitLen thr ips = some out →
        ∀ a, (a ∈ out ↔ a ∈ ips ∧ (f a bitLen : WithTop ℚ) < thr) := by
  have h : filterOutHighEntropyIPs f emitFreq bitLen thr ips =
      some (ips.filter fun ip => decide ((f ip bitLen : WithTop ℚ) < thr)) :=
    filterLoop_of_pos f bitLen thr hf 0 ips
  refine ⟨h, fun out hout a => ?_⟩
  rw [h] at hout
  obtain rfl := Option.some.inj hout
  simp [List.mem_filter]

/-- Evidence for C3 at a concrete input: with the head byte as score and
threshold one, the address `[0]` survives and `[5]` is dropped. -/
theorem filterOutHighEntropyIPs_retains_iff_witness :
    filterOutHighEntropyIPs (fun ip _ => (ip.headD 0 : ℚ)) 1 64
        ((1 : ℚ) : WithTop ℚ) [[0], [5]] = some [[0]] := by
  rw [(filterOutHighEntropyIPs_retains_iff (fun ip _ => (ip.headD 0 : ℚ)) 1 64
    ((1 : ℚ) : WithTop ℚ) [[0], [5]] (by decide)).1]
  decide

/-- C4: every successful output of the entropy filter is an ordered
subsequence of its input — never longer, original relative order preserved —
and with threshold `+Inf` (`⊤`) the output equals the input. -/
theorem filterOutHighEntropyIPs_subseq (f : IP → Nat → ℚ)
    (emitFreq bitLen : Nat) (thr : WithTop ℚ) (ips out : List IP)
    (hf : 0 < emitFreq)
    (hout : filterOutHighEntropyIPs f emitFreq bitLen thr ips = some out) :
    out.Sublist ips ∧ out.length ≤ ips.length ∧ (thr = ⊤ → out = ips) := by
  rw [(filterOutHighEntropyIPs_retains_iff f emitFreq bitLen thr ips hf).1]
    at hout
  obtain rfl := (Option.some.inj hout).symm
  refine ⟨List.filter_sublist ips, List.length_filter_le _ ips, ?_⟩
  rintro rfl
  refine List.filter_eq_self.mpr fun a _ => ?_
  simp [WithTop.coe_lt_top]

/-- Evidence for C4 at a concrete input. -/
theorem filterOutHighEntropyIPs_subseq_witness :
    ([[7]] : List IP).Sublist [[7]] ∧
      ([[7]] : List IP).length ≤ ([[7]] : List IP).length ∧
      ((⊤ : WithTop ℚ) = ⊤ → ([[7]] : List IP) = [[7]]) :=
  filterOutHighEntropyIPs_subseq (fun _ _ => 0) 1 64 ⊤ [[7]] [[7]]
    (by decide) (by decide)

/-- C9: the entropy filter terminates normally iff the progress-log interval
`conf.InputEmitFreq` is positive or the list is empty; with interval zero
and a non-empty list, every iteration evaluates `i % conf.InputEmitFreq`,
whose division by zero panics (the `none` of the model). -/
theorem filterOutHighEntropyIPs_total_iff (f : IP → Nat → ℚ)
    (emitFreq bitLen : Nat) (thr : WithTop ℚ) (ips : List IP) :
    (filterOutHighEntropyIPs f emitFreq bitLen thr ips).isSome ↔
      (0 < emitFreq ∨ ips = []) :=
  filterLoop_isSome_iff f emitFreq bitLen thr 0 ips

/-! ### Claim about the deduplicator -/

/-- C5: `removeDuplicateIPs` keeps exactly the distinct raw-byte values of
its input, each exactly once, ordered by first appearance (the positions of
their first occurrences in the input are strictly increasing along the
output); it is idempotent and maps the empty list to the empty list.  It is
a pure function of the input list, hence deterministic for a fixed input
order. -/
theorem removeDuplicateIPs_spec (l : List IP) (q : Nat) :
    (∀ a, a ∈ removeDuplicateIPs l q ↔ a ∈ l) ∧
      (∀ a, a ∈ l → (removeDuplicateIPs l q).count a = 1) ∧
      (removeDuplicateIPs l q).Pairwise
        (fun a b => firstIndexOf a l < firstIndexOf b l) ∧
      removeDuplicateIPs (removeDuplicateIPs l q) q = removeDuplicateIPs l q ∧
      removeDuplicateIPs ([] : List IP) q = [] := by
  simp only [removeDuplicateIPs, GetUniqueIPs]
  refine ⟨?_, ?_, uniqueAux_pairwise_firstIndexOf l [], ?_, rfl⟩
  · intro a
    simp [mem_uniqueAux]
  · intro a ha
    refine count_eq_one_of_nodup_mem (nodup_uniqueAux l []) ?_
    simp [mem_uniqueAux, ha]
  · rw [uniqueAux_eq_filter_of_nodup (nodup_uniqueAux l []) []]
    refine List.filter_eq_self.mpr fun a _ => ?_
    simp

/-- Evidence for C5 at a concrete input: in `[[1], [2], [1]]` the duplicated
address `[1]` appears exactly once after deduplication. -/
theorem removeDuplicateIPs_spec_witness :
    (removeDuplicateIPs [[1], [2], [1]] 1).count [1] = 1 :=
  (removeDuplicateIPs_spec [[1], [2], [1]] 1).2.1 [1] (by decide)

/-! ### Claims about the orchestrator -/

/-- C2: in every run of `PrepareFromInputFile`, if any filesystem mutation
happened (workspace reset, model bootstrap, result write or state-file
advance), then the destructive-cleanup gate had passed and the filtered
list size had been validated: either the surviving count reached the
configured minimum or the operator approved the conditional second gate. -/
theorem prepare_mutation_requires_gates (env : Env) (r : Except PrepErr Unit)
    (w : World) (h : PrepareFromInputFile env = some (r, w))
    (hmut : w.resetRun = true ∨ w.modelSaveRun = true ∨ w.writeRun = true ∨
      w.stateAdvanced = true) :
    env.confirmCleanOk = true ∧
      ∃ addrs, survivors env = some addrs ∧
        (env.inputMinAddresses ≤ addrs.length ∨ env.confirmFewOk = true) := by
  simp only [PrepareFromInputFile] at h
  cases hc : env.confirmCleanOk with
  | false =>
    rw [hc] at h
    simp only [Bool.not_false, if_true, Option.some.injEq, Prod.mk.injEq] at h
    obtain ⟨-, rfl⟩ := h
    simp [initWorld] at hmut
  | true =>
    rw [hc] at h
    simp only [Bool.not_true, Bool.false_eq_true, if_false] at h
    refine ⟨rfl, ?_⟩
    cases hl : env.loadResult with
    | none =>
      simp only [hl, Option.some.injEq, Prod.mk.injEq] at h
      obtain ⟨-, rfl⟩ := h
      simp [initWorld] at hmut
    | some loaded =>
      simp only [hl] at h
      cases hs : filterOutHighEntropyIPs env.entropyFn env.inputEmitFreq
          env.entropyBitLength env.entropyThreshold
          (removeDuplicateIPs loaded env.inputEmitFreq) with
      | none => simp [hs] at h
      | some addrs =>
        simp only [hs] at h
        refine ⟨addrs, by simp [survivors, hl, hs], ?_⟩
        cases hfew : env.confirmFewOk with
        | true => exact Or.inr rfl
        | false =>
          by_cases hlt : addrs.length < env.inputMinAddresses
          · exfalso
            have hd : decide (addrs.length < env.inputMinAddresses) = true :=
              decide_eq_true hlt
            simp only [hfew, hd, Bool.not_false, Bool.and_true,
              if_true, Option.some.injEq, Prod.mk.injEq] at h
            obtain ⟨-, rfl⟩ := h
            simp [initWorld] at hmut
          · exact Or.inl (Nat.le_of_not_lt hlt)

/-- Evidence for C2 at a concrete run in which all four mutations
happened. -/
theorem prepare_mutation_requires_gates_witness :
    allOkEnv.confirmCleanOk = true ∧
      ∃ addrs, survivors allOkEnv = some addrs ∧
        (allOkEnv.inputMinAddresses ≤ addrs.length ∨
          allOkEnv.confirmFewOk = true) :=
  prepare_mutation_requires_gates allOkEnv (.ok ())
    { resetRun := true, modelSaveRun := true, writeRun := true,
      writeSucceeded := true, stateAdvanced := true }
    rfl (Or.inl rfl)

/-- C6: when the surviving count is below the configured minimum and the
operator declines the continuation prompt, `PrepareFromInputFile` returns
the decline error and performs no filesystem mutation at all: reset, model
bootstrap, result write and state advance never run. -/
theorem prepare_declined_too_few (env : Env) (addrs : List IP)
    (hs : survivors env = some addrs)
    (hlen : addrs.length < env.inputMinAddresses)
    (hfew : env.confirmFewOk = false)
    (hclean : env.confirmCleanOk = true) :
    PrepareFromInputFile env = some (.error .tooFewDeclined, initWorld) := by
  simp only [survivors] at hs
  cases hl : env.loadResult with
  | none => simp [hl] at hs
  | some loaded =>
    simp only [hl] at hs
    simp only [PrepareFromInputFile, hclean, hl, hs, Bool.not_true,
      Bool.false_eq_true, if_false]
    simp [hlen, hfew]

/-- Evidence for C6 at a concrete run with one surviving address, a
configured minimum of five and a declining operator. -/
theorem prepare_declined_too_few_witness :
    PrepareFromInputFile tooFewEnv = some (.error .tooFewDeclined, initWorld) :=
  prepare_declined_too_few tooFewEnv [[0]] (by decide) (by decide) rfl rfl

/-- C7: when `cleanUpWorkingDirectories` fails, `PrepareFromInputFile`
returns that error immediately: the model bootstrap, the result write and
the state advance never execute (only the reset itself ran, its partial
deletions being best-effort). -/
theorem prepare_cleanup_failure_stops (env : Env) (addrs : List IP)
    (hs : survivors env = some addrs)
    (hclean : env.confirmCleanOk = true)
    (hgate : env.inputMinAddresses ≤ addrs.length ∨ env.confirmFewOk = true)
    (hfail : env.cleanupOk = false) :
    PrepareFromInputFile env =
      some (.error .cleanupError, { initWorld with resetRun := true }) := by
  simp only [survivors] at hs
  cases hl : env.loadResult with
  | none => simp [hl] at hs
  | some loaded =>
    simp only [hl] at hs
    simp only [PrepareFromInputFile, hclean, hl, hs, Bool.not_true,
      Bool.false_eq_true, if_false]
    have hcond : (decide (addrs.length < env.inputMinAddresses) &&
        !env.confirmFewOk) = false := by
      rcases hgate with hle | hfewt
      · simp [Nat.not_lt_of_le hle]
      · simp [hfewt]
    simp [hcond, hfail]

/-- Evidence for C7 at a concrete run whose workspace reset fails. -/
theorem prepare_cleanup_failure_stops_witness :
    PrepareFromInputFile cleanFailEnv =
      some (.error .cleanupError, { initWorld with resetRun := true }) :=
  prepare_cleanup_failure_stops cleanFailEnv [[0]] (by decide) rfl
    (Or.inl (by decide)) rfl

/-- C1 (divergence of the code from the claim): the source discards the
error returned by `writeNewAddresses` — the call is `writeNewAddresses(
addrs, conf)` with no `err =` — so in a run in which every step succeeds
except the write of the surviving addresses, `updateState` still runs and
the phase state file still advances: the run reports success with
`writeSucceeded = false` and `stateAdvanced = true`. -/
theorem prepare_advances_state_despite_write_failure :
    PrepareFromInputFile writeFailEnv =
      some (.ok (), { resetRun := true, modelSaveRun := true, writeRun := true,
                      writeSucceeded := false, stateAdvanced := true }) := by
  rfl

/-! ### Claims about the result writer -/

/-- C8: `updateAddressFile` hands the writer the raw address bytes when the
configured output type is "bin" and otherwise one newline-terminated
textual representation per address, logging the unexpected-format warning
exactly when the type is neither "bin" nor "text". -/
theorem updateAddressFile_format (env : WriterEnv) (pings : List IP)
    (hp : env.cleanPings = some pings) (ho : env.openOk = true) :
    updateAddressFile env =
      .ok ((if env.outputFileType = "bin" then pings.map OutChunk.raw
            else pings.map OutChunk.text),
           decide (env.outputFileType ≠ "bin" ∧ env.outputFileType ≠ "text")) := by
  simp only [updateAddressFile, hp, ho, Bool.not_true, Bool.false_eq_true,
    if_false]
  by_cases hb : env.outputFileType = "bin"
  · simp [hb]
  · by_cases ht : env.outputFileType = "text" <;> simp [hb, ht]

/-- Evidence for C8 at a concrete run with the unrecognized type "hex":
text chunks are written and the warning is logged. -/
theorem updateAddressFile_format_witness :
    updateAddressFile writerHexEnv =
      .ok ([OutChunk.text [1], OutChunk.text [2]], true) := by
  rw [updateAddressFile_format writerHexEnv [[1], [2]] rfl rfl]
  rfl

/-- C10: `updateAddressFile` returns an error exactly when reading the clean
ping results or opening the output file fails; the results of the buffered
writes and the final flush are discarded, so its return value does not
depend on whether the addresses were actually persisted. -/
theorem updateAddressFile_error_only_on_read_or_open (env : WriterEnv) :
    ((∃ v, updateAddressFile env = .ok v) ↔
        (∃ pings, env.cleanPings = some pings) ∧ env.openOk = true) ∧
      ∀ b, updateAddressFile { env with writesOk := b } =
        updateAddressFile env := by
  constructor
  · cases hp : env.cleanPings with
    | none => simp [updateAddressFile, hp]
    | some pings =>
      cases ho : env.openOk with
      | false => simp [updateAddressFile, hp, ho]
      | true =>
        constructor
        · intro _
          exact ⟨⟨pings, rfl⟩, rfl⟩
        · intro _
          by_cases hb : env.outputFileType = "bin"
          · exact ⟨(pings.map OutChunk.raw, false),
              by simp [updateAddressFile, hp, ho, hb]⟩
          · exact ⟨(pings.map OutChunk.text,
                decide (env.outputFileType ≠ "text")),
              by simp [updateAddressFile, hp, ho, hb]⟩
  · intro b
    obtain ⟨cp, oo, ot, wk⟩ := env
    cases cp <;> rfl

end Ipv666
